import Mathlib

/-!
# Verification of SigilWire.py (emoji encode/decode)

Shallow embedding of the pure core of `src/SigilWire.py`:

* Python `str` values are modelled as `List Nat` of Unicode code points
  (Python iterates strings by code point, which is exactly what the
  tokenizers in the source do).
* Python `bytes` values are modelled as `List Nat` with entries < 256.
* `CodecResult(ok, data, error)` is modelled by the structure `CodecResult`;
  the error string is modelled by a structured message (`PyErr`) that keeps
  the interpolated data (e.g. the offending code point of
  `f"Unknown emoji in hex stream: {repr(ch)}"`).
* `text.encode("utf-8")` / `bytes.decode("utf-8", errors="strict")` are
  modelled by `pyUtf8Encode` / `utf8Decode` (strict UTF-8 with the usual
  rejection of surrogates, overlong forms and values above U+10FFFF).
* `base64.b64encode` / `base64.b64decode(..., validate=True)` are modelled
  by `b64EncodeChars` / `pyB64Decode`; the latter follows the state machine
  of CPython's `binascii.a2b_base64` (non-strict mode, as called by
  `base64.b64decode`; `validate=True` only pre-checks membership in the
  base64 character set, which holds by construction for every string the
  decoder builds).
-/

namespace SigilWire

/-- Python `str.isspace` on a single code point: the exact set of code
points for which CPython reports `chr(c).isspace()`. -/
def isSpace (c : Nat) : Bool :=
  (0x9 ≤ c && c ≤ 0xD) || (0x1C ≤ c && c ≤ 0x1F) || c == 0x20 ||
  c == 0x85 || c == 0xA0 || c == 0x1680 ||
  (0x2000 ≤ c && c ≤ 0x200A) || c == 0x2028 || c == 0x2029 ||
  c == 0x202F || c == 0x205F || c == 0x3000

/-- Python `str.isspace` on a whole (possibly multi-code-point) unit:
true iff the unit is nonempty and every code point is whitespace. -/
def pyStrIsSpace (u : List Nat) : Bool :=
  !u.isEmpty && u.all isSpace

/-- `HEX_EMOJI_16` from the source: the 16 single-code-point emojis used
for hex nibbles, listed by code point. -/
def HEX_EMOJI_16 : List Nat :=
  [0x1F600, 0x1F601, 0x1F602, 0x1F603, 0x1F604, 0x1F605, 0x1F606, 0x1F609,
   0x1F60A, 0x1F642, 0x1F643, 0x1F60B, 0x1F60E, 0x1F60D, 0x1F618, 0x1F617]

/-- `BASE64_EMOJI_64` from the source: 64 entries, each a list of code
points (entry 49, `☹️`, is the two-code-point sequence U+2639 U+FE0F;
all others are single code points). Entries 20/41, 35/60 and 36/61 are
duplicated glyphs, exactly as in the source. -/
def BASE64_EMOJI_64 : List (List Nat) :=
  [[0x1F600], [0x1F601], [0x1F602], [0x1F603], [0x1F604], [0x1F605], [0x1F606], [0x1F609],
   [0x1F60A], [0x1F642], [0x1F643], [0x1F60B], [0x1F60E], [0x1F60D], [0x1F618], [0x1F617],
   [0x1F619], [0x1F61A], [0x1F970], [0x1F929], [0x1F917], [0x1F914], [0x1F928], [0x1F610],
   [0x1F611], [0x1F636], [0x1F644], [0x1F60F], [0x1F623], [0x1F625], [0x1F62E], [0x1F910],
   [0x1F62A], [0x1F62B], [0x1F971], [0x1F634], [0x1F60C], [0x1F61B], [0x1F61C], [0x1F92A],
   [0x1F61D], [0x1F917], [0x1F92D], [0x1F92B], [0x1F925], [0x1F62C], [0x1F614], [0x1F615],
   [0x1F641], [0x2639, 0xFE0F], [0x1F61F], [0x1F624], [0x1F622], [0x1F62D], [0x1F631], [0x1F628],
   [0x1F630], [0x1F62F], [0x1F632], [0x1F92F], [0x1F634], [0x1F60C], [0x1F608], [0x1F47B]]

/-- `PADDING_EMOJI` = 🟦 (U+1F7E6), the explicit base64 padding symbol. -/
def padCp : Nat := 0x1F7E6

/-- `B64_STD` from the source, as ASCII codes:
`"ABCDEFGHIJKLMNOPQRSTUVWXYZabcdefghijklmnopqrstuvwxyz0123456789+/"`. -/
def B64_STD : List Nat :=
  [65, 66, 67, 68, 69, 70, 71, 72, 73, 74, 75, 76, 77, 78, 79, 80,
   81, 82, 83, 84, 85, 86, 87, 88, 89, 90,
   97, 98, 99, 100, 101, 102, 103, 104, 105, 106, 107, 108, 109, 110,
   111, 112, 113, 114, 115, 116, 117, 118, 119, 120, 121, 122,
   48, 49, 50, 51, 52, 53, 54, 55, 56, 57, 43, 47]

/-- First-match association lookup (Python `dict.get` once the dict has
been materialised as a key/value list). -/
def assocFind {α β : Type} [DecidableEq α] (k : α) : List (α × β) → Option β
  | [] => none
  | p :: rest => if p.1 = k then some p.2 else assocFind k rest

/-- The insertion sequence of `EMOJI_TO_B64 = {BASE64_EMOJI_64[i]: B64_STD[i]
for i in range(64)}`: pairs (emoji unit, base64 character code) in table
order. In a Python dict comprehension a later binding for the same key
overwrites the earlier one, so lookup in the dict equals first-match
lookup in the *reversed* insertion sequence (see `emojiToB64`). -/
def EMOJI_TO_B64_pairs : List (List Nat × Nat) :=
  (List.range 64).map (fun i => (BASE64_EMOJI_64.getD i [], B64_STD.getD i 0))

/-- Lookup in `EMOJI_TO_B64` (emoji unit → base64 character code), with the
last-binding-wins semantics of the Python dict comprehension. -/
def emojiToB64 (u : List Nat) : Option Nat :=
  assocFind u EMOJI_TO_B64_pairs.reverse

/-- Lookup in `B64_TO_EMOJI = {B64_STD[i]: BASE64_EMOJI_64[i] for i in
range(64)}` (base64 character code → emoji unit). The keys `B64_STD[i]`
are pairwise distinct, so first-match lookup agrees with the dict. -/
def b64ToEmoji (c : Nat) : Option (List Nat) :=
  assocFind c ((List.range 64).map (fun i => (B64_STD.getD i 0, BASE64_EMOJI_64.getD i [])))

/-- Lookup in `REV_HEX_MAP` restated on nibble values: the hex emoji code
point → its nibble value 0..15. (`HEX_MAP` sends the hex digit of value
`i` to `HEX_EMOJI_16[i]`; digits and values correspond bijectively via
`f"{i:x}"` / `bytes.fromhex`, so we carry the value directly.) The 16
emojis are pairwise distinct, so first-match lookup agrees with the dict. -/
def revHexVal (c : Nat) : Option Nat :=
  assocFind c ((List.range 16).map (fun i => (HEX_EMOJI_16.getD i 0, i)))

/-- `ch in REV_HEX_MAP` for a single code point. -/
def inRevHexMap (c : Nat) : Bool :=
  (revHexVal c).isSome

/-- Membership of a single code point `ch` in
`set(BASE64_EMOJI_64 + [PADDING_EMOJI])`: the one-code-point string `ch`
equals some element of that set (it can never equal the two-code-point
entry `☹️`). -/
def inB64EmojiSet (c : Nat) : Bool :=
  (BASE64_EMOJI_64 ++ [[padCp]]).contains [c]

/-- A Unicode scalar value Python can UTF-8-encode: below U+110000 and not
a surrogate. -/
def isValidScalar (c : Nat) : Bool :=
  decide (c < 0x110000 ∧ ¬(0xD800 ≤ c ∧ c < 0xE000))

/-- UTF-8 encoding of one scalar value (byte list). -/
def utf8EncodeChar (c : Nat) : List Nat :=
  if c < 0x80 then [c]
  else if c < 0x800 then [0xC0 + c / 64, 0x80 + c % 64]
  else if c < 0x10000 then [0xE0 + c / 4096, 0x80 + c / 64 % 64, 0x80 + c % 64]
  else [0xF0 + c / 262144, 0x80 + c / 4096 % 64, 0x80 + c / 64 % 64, 0x80 + c % 64]

/-- `text.encode(encoding)` with `encoding = "utf-8"`: fails (raises
`UnicodeEncodeError`, modelled as `none`) iff some code point is a
surrogate or out of range. -/
def pyUtf8Encode (s : List Nat) : Option (List Nat) :=
  if s.all isValidScalar then some (s.flatMap utf8EncodeChar) else none

/-- One step of strict UTF-8 decoding: given the first byte `b` and the
remaining bytes, either the decoded scalar together with the bytes left
over, or `none` on a malformed sequence (continuation-byte errors,
overlong forms, surrogates, values above U+10FFFF, truncation). -/
def utf8DecodeOne (b : Nat) (rest : List Nat) : Option (Nat × List Nat) :=
  if b < 0x80 then some (b, rest)
  else if b < 0xC2 then none
  else if b < 0xE0 then
    match rest with
    | b2 :: r =>
      if 0x80 ≤ b2 && b2 < 0xC0 then some ((b - 0xC0) * 64 + (b2 - 0x80), r) else none
    | [] => none
  else if b < 0xF0 then
    match rest with
    | b2 :: b3 :: r =>
      if (0x80 ≤ b2 && b2 < 0xC0) && (0x80 ≤ b3 && b3 < 0xC0) &&
         !(b == 0xE0 && b2 < 0xA0) && !(b == 0xED && 0xA0 ≤ b2) then
        some ((b - 0xE0) * 4096 + (b2 - 0x80) * 64 + (b3 - 0x80), r)
      else none
    | _ => none
  else if b < 0xF5 then
    match rest with
    | b2 :: b3 :: b4 :: r =>
      if (0x80 ≤ b2 && b2 < 0xC0) && (0x80 ≤ b3 && b3 < 0xC0) &&
         (0x80 ≤ b4 && b4 < 0xC0) &&
         !(b == 0xF0 && b2 < 0x90) && !(b == 0xF4 && 0x90 ≤ b2) then
        some ((b - 0xF0) * 262144 + (b2 - 0x80) * 4096 + (b3 - 0x80) * 64 + (b4 - 0x80), r)
      else none
    | _ => none
  else none

/-- Fuel-driven decoding loop; each step consumes at least the leading
byte, so fuel equal to the byte count is always sufficient (see
`utf8DecodeLoop_fuel`). -/
def utf8DecodeLoop : Nat → List Nat → Option (List Nat)
  | _, [] => some []
  | 0, _ :: _ => none
  | fuel + 1, b :: rest =>
    match utf8DecodeOne b rest with
    | none => none
    | some (c, r) => (utf8DecodeLoop fuel r).map (fun t => c :: t)

/-- Strict UTF-8 decoding (`bytes.decode("utf-8", errors="strict")`);
`none` models `UnicodeDecodeError`. -/
def utf8Decode (l : List Nat) : Option (List Nat) :=
  utf8DecodeLoop l.length l

theorem utf8DecodeOne_length (b c : Nat) (rest r : List Nat)
    (h : utf8DecodeOne b rest = some (c, r)) : r.length ≤ rest.length := by
  rcases rest with _ | ⟨b2, _ | ⟨b3, _ | ⟨b4, rr⟩⟩⟩ <;> unfold utf8DecodeOne at h
  all_goals (dsimp only at h)
  all_goals try split at h
  all_goals try split at h
  all_goals try split at h
  all_goals try split at h
  all_goals try split at h
  all_goals try split at h
  all_goals (first
    | (rw [Option.some_inj, Prod.mk.injEq] at h; rcases h with ⟨-, rfl⟩; simp; try omega)
    | exact absurd h (by simp))

theorem utf8DecodeLoop_fuel2 (f1 : Nat) (f2 : Nat) (l : List Nat)
    (h1 : l.length ≤ f1) (h2 : l.length ≤ f2) :
    utf8DecodeLoop f1 l = utf8DecodeLoop f2 l := by
  induction f1 generalizing f2 l with
  | zero =>
    cases l with
    | nil => cases f2 <;> rfl
    | cons b rest => simp at h1
  | succ f1 ih =>
    cases l with
    | nil => cases f2 <;> rfl
    | cons b rest =>
      cases f2 with
      | zero => simp at h2
      | succ f2 =>
        simp only [List.length_cons] at h1 h2
        simp only [utf8DecodeLoop]
        cases hone : utf8DecodeOne b rest with
        | none => rfl
        | some p =>
          obtain ⟨c, r⟩ := p
          have hr := utf8DecodeOne_length b c rest r hone
          dsimp only
          rw [ih f2 r (by omega) (by omega)]

theorem utf8DecodeLoop_fuel (fuel : Nat) (l : List Nat) (h : l.length ≤ fuel) :
    utf8DecodeLoop fuel l = utf8Decode l :=
  utf8DecodeLoop_fuel2 fuel l.length l h (Nat.le_refl _)

theorem utf8DecodeOne_encodeChar (c : Nat) (h : isValidScalar c = true) (t : List Nat) :
    ∃ bs, utf8EncodeChar c = bs ∧ bs ≠ [] ∧
      utf8DecodeOne (bs.headD 0) (bs.tail ++ t) = some (c, t) := by
  have hc : c < 0x110000 ∧ ¬(0xD800 ≤ c ∧ c < 0xE000) := of_decide_eq_true h
  by_cases h1 : c < 0x80
  · refine ⟨[c], by rw [utf8EncodeChar, if_pos h1], by simp, ?_⟩
    simp only [List.headD_cons, List.tail_cons, List.nil_append]
    simp only [utf8DecodeOne, if_pos h1]
  · by_cases h2 : c < 0x800
    · refine ⟨[0xC0 + c / 64, 0x80 + c % 64],
        by rw [utf8EncodeChar, if_neg h1, if_pos h2], by simp, ?_⟩
      simp only [List.headD_cons, List.tail_cons, List.cons_append, List.nil_append]
      simp only [utf8DecodeOne, if_neg (show ¬(0xC0 + c / 64 < 0x80) by omega),
        if_neg (show ¬(0xC0 + c / 64 < 0xC2) by omega),
        if_pos (show 0xC0 + c / 64 < 0xE0 by omega),
        if_pos (show (0x80 ≤ 0x80 + c % 64 && 0x80 + c % 64 < 0xC0) = true by
          simp only [Bool.and_eq_true, decide_eq_true_eq]; omega)]
      rw [show (0xC0 + c / 64 - 0xC0) * 64 + (0x80 + c % 64 - 0x80) = c by omega]
    · by_cases h3 : c < 0x10000
      · refine ⟨[0xE0 + c / 4096, 0x80 + c / 64 % 64, 0x80 + c % 64],
          by rw [utf8EncodeChar, if_neg h1, if_neg h2, if_pos h3], by simp, ?_⟩
        simp only [List.headD_cons, List.tail_cons, List.cons_append, List.nil_append]
        simp only [utf8DecodeOne, if_neg (show ¬(0xE0 + c / 4096 < 0x80) by omega),
          if_neg (show ¬(0xE0 + c / 4096 < 0xC2) by omega),
          if_neg (show ¬(0xE0 + c / 4096 < 0xE0) by omega),
          if_pos (show 0xE0 + c / 4096 < 0xF0 by omega),
          if_pos (show ((0x80 ≤ 0x80 + c / 64 % 64 && 0x80 + c / 64 % 64 < 0xC0) &&
              (0x80 ≤ 0x80 + c % 64 && 0x80 + c % 64 < 0xC0) &&
              !(0xE0 + c / 4096 == 0xE0 && 0x80 + c / 64 % 64 < 0xA0) &&
              !(0xE0 + c / 4096 == 0xED && 0xA0 ≤ 0x80 + c / 64 % 64)) = true by
            simp only [Bool.and_eq_true, Bool.not_eq_true', Bool.and_eq_false_iff,
              decide_eq_true_eq, decide_eq_false_iff_not, beq_iff_eq, beq_eq_false_iff_ne,
              ne_eq, not_le, not_lt]
            omega)]
        rw [show (0xE0 + c / 4096 - 0xE0) * 4096 + (0x80 + c / 64 % 64 - 0x80) * 64 +
          (0x80 + c % 64 - 0x80) = c by omega]
      · refine ⟨[0xF0 + c / 262144, 0x80 + c / 4096 % 64, 0x80 + c / 64 % 64, 0x80 + c % 64],
          by rw [utf8EncodeChar, if_neg h1, if_neg h2, if_neg h3], by simp, ?_⟩
        simp only [List.headD_cons, List.tail_cons, List.cons_append, List.nil_append]
        simp only [utf8DecodeOne, if_neg (show ¬(0xF0 + c / 262144 < 0x80) by omega),
          if_neg (show ¬(0xF0 + c / 262144 < 0xC2) by omega),
          if_neg (show ¬(0xF0 + c / 262144 < 0xE0) by omega),
          if_neg (show ¬(0xF0 + c / 262144 < 0xF0) by omega),
          if_pos (show 0xF0 + c / 262144 < 0xF5 by omega),
          if_pos (show ((0x80 ≤ 0x80 + c / 4096 % 64 && 0x80 + c / 4096 % 64 < 0xC0) &&
              (0x80 ≤ 0x80 + c / 64 % 64 && 0x80 + c / 64 % 64 < 0xC0) &&
              (0x80 ≤ 0x80 + c % 64 && 0x80 + c % 64 < 0xC0) &&
              !(0xF0 + c / 262144 == 0xF0 && 0x80 + c / 4096 % 64 < 0x90) &&
              !(0xF0 + c / 262144 == 0xF4 && 0x90 ≤ 0x80 + c / 4096 % 64)) = true by
            simp only [Bool.and_eq_true, Bool.not_eq_true', Bool.and_eq_false_iff,
              decide_eq_true_eq, decide_eq_false_iff_not, beq_iff_eq, beq_eq_false_iff_ne,
              ne_eq, not_le, not_lt]
            omega)]
        rw [show (0xF0 + c / 262144 - 0xF0) * 262144 + (0x80 + c / 4096 % 64 - 0x80) * 4096 +
          (0x80 + c / 64 % 64 - 0x80) * 64 + (0x80 + c % 64 - 0x80) = c by omega]

theorem utf8Decode_encodeChar_append (c : Nat) (h : isValidScalar c = true)
    (t : List Nat) :
    utf8Decode (utf8EncodeChar c ++ t) = (utf8Decode t).map (fun s => c :: s) := by
  obtain ⟨bs, hbs, hne, hone⟩ := utf8DecodeOne_encodeChar c h t
  rw [hbs]
  cases bs with
  | nil => exact absurd rfl hne
  | cons b0 brest =>
    simp only [List.headD_cons, List.tail_cons] at hone
    rw [utf8Decode]
    simp only [List.cons_append, List.length_cons, utf8DecodeLoop, List.append_eq, hone]
    rw [utf8DecodeLoop_fuel _ t (by simp [List.length_append])]

theorem utf8_roundtrip (s : List Nat) (h : s.all isValidScalar = true) :
    utf8Decode (s.flatMap utf8EncodeChar) = some s := by
  induction s with
  | nil => rfl
  | cons c rest ih =>
    simp only [List.all_cons, Bool.and_eq_true] at h
    rw [show (c :: rest).flatMap utf8EncodeChar =
      utf8EncodeChar c ++ rest.flatMap utf8EncodeChar from rfl]
    rw [utf8Decode_encodeChar_append c h.1, ih h.2]
    rfl

/-- Bytes produced by the UTF-8 encoder are below 256. -/
theorem utf8EncodeChar_lt_256 (c : Nat) (h : isValidScalar c = true) :
    ∀ b ∈ utf8EncodeChar c, b < 256 := by
  have hc : c < 0x110000 ∧ ¬(0xD800 ≤ c ∧ c < 0xE000) := of_decide_eq_true h
  intro b hb
  unfold utf8EncodeChar at hb
  by_cases h1 : c < 0x80
  · simp [h1] at hb; omega
  · by_cases h2 : c < 0x800
    · simp [h1, h2] at hb
      rcases hb with hb | hb <;> omega
    · by_cases h3 : c < 0x10000
      · simp [h1, h2, h3] at hb
        rcases hb with hb | hb | hb <;> omega
      · simp [h1, h2, h3] at hb
        rcases hb with hb | hb | hb | hb <;> omega

/-- Structured error messages: each constructor models one of the error
strings the source can put into `CodecResult.error`, keeping the
interpolated data. -/
inductive B64Err
  /-- binascii: "Invalid base64-encoded string: number of data characters
  (n) cannot be 1 more than a multiple of 4". -/
  | oneMoreThanMultipleOf4
  /-- binascii: "Incorrect padding". -/
  | incorrectPadding
deriving DecidableEq

inductive PyErr
  /-- `f"Unknown emoji in hex stream: {repr(ch)}"` with offending code point. -/
  | unknownHexEmoji (cp : Nat)
  /-- "Odd-length hex after mapping (corrupt input)." -/
  | oddLengthHex
  /-- `f"Unknown emoji in base64 stream: {repr(ch)}"` with offending unit. -/
  | unknownB64Emoji (unit : List Nat)
  /-- `f"Base64 decode error: {e}"` wrapping a binascii error. -/
  | base64Error (e : B64Err)
  /-- a `UnicodeDecodeError` from `raw.decode(encoding, errors="strict")`. -/
  | unicodeDecodeError
  /-- a `UnicodeEncodeError` from `text.encode(encoding)`. -/
  | unicodeEncodeError
deriving DecidableEq

/-- `CodecResult(ok, data, error)`; `data` is the output string as code
points, `error` the structured error message (`none` for `""`). -/
structure CodecResult where
  ok : Bool
  data : List Nat
  error : Option PyErr
deriving DecidableEq

/-- `encode_hex_emoji`: UTF-8-encode, take `raw.hex()` (high nibble first
per byte), map each hex digit through `HEX_MAP` to its emoji. -/
def encode_hex_emoji (text : List Nat) : CodecResult :=
  match pyUtf8Encode text with
  | none => ⟨false, [], some .unicodeEncodeError⟩
  | some raw =>
    ⟨true, raw.flatMap (fun b => [HEX_EMOJI_16.getD (b / 16) 0, HEX_EMOJI_16.getD (b % 16) 0]),
      none⟩

/-- The tokenizing loop of `decode_hex_emoji`: for each code point, map it
through `REV_HEX_MAP` if possible, else skip it if whitespace, else stop
with the unknown-emoji error carrying that code point. -/
def hexTokenize : List Nat → Except Nat (List Nat)
  | [] => .ok []
  | c :: rest =>
    match revHexVal c with
    | some v => (hexTokenize rest).map (fun ns => v :: ns)
    | none => if isSpace c then hexTokenize rest else .error c

/-- `bytes.fromhex` on an (even-length) nibble-value sequence. -/
def nibblesToBytes : List Nat → List Nat
  | n1 :: n2 :: rest => (n1 * 16 + n2) :: nibblesToBytes rest
  | _ => []

/-- `decode_hex_emoji`: tokenize, reject an odd nibble count, rebuild the
bytes, strict-UTF-8 decode. -/
def decode_hex_emoji (s : List Nat) : CodecResult :=
  match hexTokenize s with
  | .error c => ⟨false, [], some (.unknownHexEmoji c)⟩
  | .ok ns =>
    if ns.length % 2 ≠ 0 then ⟨false, [], some .oddLengthHex⟩
    else
      match utf8Decode (nibblesToBytes ns) with
      | some text => ⟨true, text, none⟩
      | none => ⟨false, [], some .unicodeDecodeError⟩

/-- `base64.b64encode` on bytes, as base64 character codes (ASCII), with
`=` = 0x3D padding. -/
def b64EncodeChars : List Nat → List Nat
  | [] => []
  | [b1] => [B64_STD.getD (b1 / 4) 0, B64_STD.getD (b1 % 4 * 16) 0, 0x3D, 0x3D]
  | [b1, b2] => [B64_STD.getD (b1 / 4) 0, B64_STD.getD (b1 % 4 * 16 + b2 / 16) 0,
      B64_STD.getD (b2 % 16 * 4) 0, 0x3D]
  | b1 :: b2 :: b3 :: rest =>
    B64_STD.getD (b1 / 4) 0 :: B64_STD.getD (b1 % 4 * 16 + b2 / 16) 0 ::
      B64_STD.getD (b2 % 16 * 4 + b3 / 64) 0 :: B64_STD.getD (b3 % 64) 0 :: b64EncodeChars rest

/-- `encode_b64_emoji`: UTF-8-encode, `base64.b64encode`, then map each
base64 character to its emoji (`=` to the padding emoji). The
`B64_TO_EMOJI[ch]` lookup always succeeds (every character b64encode
emits is a `B64_STD` key), so the `getD []` default is never taken. -/
def encode_b64_emoji (text : List Nat) : CodecResult :=
  match pyUtf8Encode text with
  | none => ⟨false, [], some .unicodeEncodeError⟩
  | some raw =>
    ⟨true, (b64EncodeChars raw).flatMap
        (fun ch => if ch = 0x3D then [padCp] else (b64ToEmoji ch).getD []),
      none⟩

/-- Processing of one consumed unit in the `decode_b64_emoji` loop, in
source order: skip whitespace, turn the padding emoji into `=`, look the
unit up in `EMOJI_TO_B64`, otherwise stop with the unknown-emoji error
carrying that unit. `k` is the translation of the remaining stream. -/
def b64HandleUnit (u : List Nat) (k : Except (List Nat) (List Nat)) :
    Except (List Nat) (List Nat) :=
  if pyStrIsSpace u then k
  else if u = [padCp] then k.map (fun cs => 0x3D :: cs)
  else
    match emojiToB64 u with
    | some ch => k.map (fun cs => ch :: cs)
    | none => .error u

/-- The scanning loop of `decode_b64_emoji`: at each index, greedily try
the two-code-point slice (`two in EMOJI_TO_B64 or two == PADDING_EMOJI`;
the second test compares a length-2 string with the length-1 padding
string and so never succeeds, but is kept for fidelity), else consume a
single code point. -/
def b64Tokenize : List Nat → Except (List Nat) (List Nat)
  | [] => .ok []
  | [c] => b64HandleUnit [c] (.ok [])
  | c1 :: c2 :: rest =>
    if (emojiToB64 [c1, c2]).isSome || [c1, c2] = [padCp] then
      b64HandleUnit [c1, c2] (b64Tokenize rest)
    else
      b64HandleUnit [c1] (b64Tokenize (c2 :: rest))

/-- The base64 character table of `binascii.a2b_base64` (character code →
6-bit value); identical to the index of the character in `B64_STD`. -/
def b64CharVal (c : Nat) : Option Nat :=
  assocFind c ((List.range 64).map (fun i => (B64_STD.getD i 0, i)))

/-- The state machine of CPython's `binascii.a2b_base64` in non-strict
mode (as called by `base64.b64decode`): arguments are the remaining
character codes, `quad_pos`, `leftchar`, the output bytes in reverse, and
the running pad count. On `=`: finish once `quad_pos >= 2` and
`quad_pos + pads >= 4`, otherwise skip it. On a data character: shift the
accumulated bits out byte by byte and reset `pads`. At end of input a
nonzero `quad_pos` is an error. -/
def a2bBase64Loop : List Nat → Nat → Nat → List Nat → Nat → Except B64Err (List Nat)
  | [], quad, _, out, _ =>
    if quad = 0 then .ok out.reverse
    else if quad = 1 then .error .oneMoreThanMultipleOf4
    else .error .incorrectPadding
  | ch :: rest, quad, left, out, pads =>
    if ch = 0x3D then
      if 2 ≤ quad ∧ 4 ≤ quad + (pads + 1) then .ok out.reverse
      else a2bBase64Loop rest quad left out (pads + 1)
    else
      match b64CharVal ch with
      | none => a2bBase64Loop rest quad left out pads
      | some v =>
        match quad with
        | 0 => a2bBase64Loop rest 1 v out 0
        | 1 => a2bBase64Loop rest 2 (v % 16) ((left * 4 + v / 16) :: out) 0
        | 2 => a2bBase64Loop rest 3 (v % 4) ((left * 16 + v / 4) :: out) 0
        | _ => a2bBase64Loop rest 0 0 ((left * 64 + v) :: out) 0

/-- `base64.b64decode(b64, validate=True)` on a character-code string.
(The `validate=True` pre-check only requires membership in the base64
character set, which holds for every string `decode_b64_emoji` builds.) -/
def pyB64Decode (chars : List Nat) : Except B64Err (List Nat) :=
  a2bBase64Loop chars 0 0 [] 0

/-- `decode_b64_emoji`: scan the emoji stream back to base64 characters,
`b64decode`, strict-UTF-8 decode. (In the source both the binascii error
and a `UnicodeDecodeError` are caught by the same handler and reported as
"Base64 decode error: ...".) -/
def decode_b64_emoji (s : List Nat) : CodecResult :=
  match b64Tokenize s with
  | .error u => ⟨false, [], some (.unknownB64Emoji u)⟩
  | .ok chars =>
    match pyB64Decode chars with
    | .error e => ⟨false, [], some (.base64Error e)⟩
    | .ok raw =>
      match utf8Decode raw with
      | some text => ⟨true, text, none⟩
      | none => ⟨false, [], some .unicodeDecodeError⟩

/-- `looks_like_hex_emoji`. -/
def looks_like_hex_emoji (s : List Nat) : Bool :=
  s.all (fun ch => inRevHexMap ch || isSpace ch) && s.any (fun ch => inRevHexMap ch)

/-- `looks_like_b64_emoji`; membership of the single code point `ch` in
`set(BASE64_EMOJI_64 + [PADDING_EMOJI])` is `inB64EmojiSet`. -/
def looks_like_b64_emoji (s : List Nat) : Bool :=
  s.all (fun ch => inB64EmojiSet ch || isSpace ch) && s.any (fun ch => inB64EmojiSet ch)

/-- `args.mode` of the CLI (`--mode hex|b64`, default `hex`). -/
inductive CliMode
  | hex
  | b64
deriving DecidableEq

/-- The decode dispatch of `run_cli` (source lines 367-374): with mode
`hex`, a stream that satisfies `looks_like_b64_emoji` is routed to the
base64 decoder; with mode `b64`, a stream that satisfies
`looks_like_hex_emoji` is routed to the hex decoder; otherwise the
decoder of the selected mode runs. -/
def cliDecodeDispatch (mode : CliMode) (data : List Nat) : CodecResult :=
  if mode = CliMode.hex ∧ looks_like_b64_emoji data then decode_b64_emoji data
  else if mode = CliMode.b64 ∧ looks_like_hex_emoji data then decode_hex_emoji data
  else if mode = CliMode.hex then decode_hex_emoji data else decode_b64_emoji data

/-- `text.strip()`: remove leading and trailing whitespace. -/
def pyStrip (s : List Nat) : List Nat :=
  ((s.dropWhile isSpace).reverse.dropWhile isSpace).reverse

/-- Which branch `EmojiCodecApp.auto_detect_decode` takes. -/
inductive DetectChoice
  /-- empty after `strip()`: "Nothing to detect." -/
  | nothingToDetect
  /-- sets mode `hex`, direction `decode`, runs the hex decoder. -/
  | chooseHex
  /-- sets mode `b64`, direction `decode`, runs the base64 decoder. -/
  | chooseB64
  /-- "Cannot detect encoded emoji stream." -/
  | cannotDetect
deriving DecidableEq

/-- The selection logic of `EmojiCodecApp.auto_detect_decode` (source
lines 254-264): hex is tested first, base64 second. -/
def auto_detect_decode (input : List Nat) : DetectChoice :=
  let text := pyStrip input
  if text = [] then .nothingToDetect
  else if looks_like_hex_emoji text then .chooseHex
  else if looks_like_b64_emoji text then .chooseB64
  else .cannotDetect

/-- A whitespace-interleaved symbol stream: leading whitespace `lead`,
then for each `(symbol, trailing whitespace)` pair the symbol followed by
its whitespace. With all whitespace empty this is just the concatenation
of the symbols. -/
def wsInterleave (lead : List Nat) (parts : List (List Nat × List Nat)) : List Nat :=
  lead ++ (parts.map (fun p => p.1 ++ p.2)).flatten

/-- A unit that `decode_hex_emoji` consumes as one nibble symbol: a single
code point in the hex alphabet. -/
def isHexSymU (u : List Nat) : Bool :=
  match u with
  | [c] => inRevHexMap c
  | _ => false

/-- The nibble value of a hex symbol. -/
def hexSymVal (u : List Nat) : Nat :=
  (revHexVal (u.headD 0)).getD 0

/-- A unit that `decode_b64_emoji` consumes as one symbol: a key of
`EMOJI_TO_B64` or the padding emoji. -/
def isB64SymU (u : List Nat) : Bool :=
  (emojiToB64 u).isSome || u == [padCp]

/-- The base64 character code a symbol stands for (`=` for padding). -/
def b64SymTok (u : List Nat) : Nat :=
  if u = [padCp] then 0x3D else (emojiToB64 u).getD 0

theorem assocFind_mem {α β : Type} [DecidableEq α] (k : α) (v : β) :
    ∀ l : List (α × β), assocFind k l = some v → (k, v) ∈ l := by
  intro l
  induction l with
  | nil => intro h; simp [assocFind] at h
  | cons p rest ih =>
    intro h
    rw [assocFind] at h
    split at h
    · obtain ⟨a, b⟩ := p
      rw [Option.some_inj] at h
      simp_all
    · exact List.mem_cons_of_mem _ (ih h)

theorem revHexVal_some_mem (c v : Nat) (h : revHexVal c = some v) :
    (c, v) ∈ (List.range 16).map (fun i => (HEX_EMOJI_16.getD i 0, i)) :=
  assocFind_mem c v _ h

/-- The concrete key/value list behind `revHexVal`: every key is a
non-whitespace code point that also lies in the base64 emoji set (the hex
alphabet is the first 16 entries of the base64 alphabet). -/
theorem revHexVal_keys_check :
    ((List.range 16).map (fun i => (HEX_EMOJI_16.getD i 0, i))).all
      (fun p => !isSpace p.1 && inB64EmojiSet p.1) = true := by rfl

/-- Every key of `REV_HEX_MAP` is a member of the base64 emoji set. -/
theorem inRevHexMap_inB64EmojiSet (c : Nat) (h : inRevHexMap c = true) :
    inB64EmojiSet c = true := by
  rw [inRevHexMap] at h
  obtain ⟨v, hv⟩ := Option.isSome_iff_exists.mp h
  have hm := revHexVal_some_mem c v hv
  have := List.all_eq_true.mp revHexVal_keys_check _ hm
  simp only [Bool.and_eq_true, Bool.not_eq_true'] at this
  exact this.2

/-- No key of `REV_HEX_MAP` is whitespace. -/
theorem inRevHexMap_not_space (c : Nat) (h : inRevHexMap c = true) :
    isSpace c = false := by
  rw [inRevHexMap] at h
  obtain ⟨v, hv⟩ := Option.isSome_iff_exists.mp h
  have hm := revHexVal_some_mem c v hv
  have := List.all_eq_true.mp revHexVal_keys_check _ hm
  simp only [Bool.and_eq_true, Bool.not_eq_true'] at this
  exact this.1

theorem emojiToB64_some_mem (u : List Nat) (ch : Nat) (h : emojiToB64 u = some ch) :
    (u, ch) ∈ EMOJI_TO_B64_pairs := by
  have := assocFind_mem u ch _ h
  exact List.mem_reverse.mp this

/-- Key-shape check over the concrete pair list of `EMOJI_TO_B64`. -/
theorem emojiToB64_keys_check :
    EMOJI_TO_B64_pairs.all
      (fun p => match p.1 with
        | [c] => !isSpace c && decide (c ≠ 0x2639) && decide (c ≠ 0xFE0F) && decide (c ≠ padCp)
        | [c1, c2] => decide (c1 = 0x2639) && decide (c2 = 0xFE0F)
        | _ => false) = true := by rfl

/-- Shape of the keys of `EMOJI_TO_B64`: every key is either a single
code point that is not whitespace, not U+2639, not U+FE0F and not the
padding emoji, or it is the two-code-point sequence U+2639 U+FE0F. -/
theorem emojiToB64_key_shape (u : List Nat) (ch : Nat) (h : emojiToB64 u = some ch) :
    (∃ c, u = [c] ∧ isSpace c = false ∧ c ≠ 0x2639 ∧ c ≠ 0xFE0F ∧ c ≠ padCp) ∨
      u = [0x2639, 0xFE0F] := by
  have hm := emojiToB64_some_mem u ch h
  have := List.all_eq_true.mp emojiToB64_keys_check _ hm
  match u, this with
  | [c], hp =>
    simp only [Bool.and_eq_true, Bool.not_eq_true', decide_eq_true_eq] at hp
    exact Or.inl ⟨c, rfl, hp.1.1.1, hp.1.1.2, hp.1.2, hp.2⟩
  | [c1, c2], hp =>
    simp only [Bool.and_eq_true, decide_eq_true_eq] at hp
    exact Or.inr (by rw [hp.1, hp.2])

/-- A two-code-point slice is a key of `EMOJI_TO_B64` only if it is
U+2639 U+FE0F. -/
theorem emojiToB64_two_shape (c1 c2 : Nat) (h : (emojiToB64 [c1, c2]).isSome = true) :
    c1 = 0x2639 ∧ c2 = 0xFE0F := by
  obtain ⟨ch, hch⟩ := Option.isSome_iff_exists.mp h
  rcases emojiToB64_key_shape _ _ hch with ⟨c, hc, -⟩ | he
  · simp at hc
  · rw [List.cons.injEq, List.cons.injEq] at he
    exact ⟨he.1, he.2.1⟩

theorem exceptMap_map {ε α β γ : Type} (f : α → β) (g : β → γ) (m : Except ε α) :
    (m.map f).map g = m.map (fun x => g (f x)) := by
  cases m <;> rfl

/-- A code point is accepted by the hex tokenizer iff it maps or is
whitespace. -/
def hexGoodCp (c : Nat) : Bool :=
  inRevHexMap c || isSpace c

theorem hexTokenize_all_good :
    ∀ s : List Nat, s.all hexGoodCp = true →
      hexTokenize s = .ok (s.filterMap revHexVal) := by
  intro s
  induction s with
  | nil => intro h; rfl
  | cons c rest ih =>
    intro h
    rw [List.all_cons, Bool.and_eq_true] at h
    cases hv : revHexVal c with
    | some v =>
      simp only [hexTokenize, hv, ih h.2, List.filterMap_cons]
      rfl
    | none =>
      have hsp : isSpace c = true := by
        have h1 := h.1
        rw [hexGoodCp, Bool.or_eq_true, inRevHexMap, hv] at h1
        simpa using h1
      simp only [hexTokenize, hv, if_pos hsp, ih h.2, List.filterMap_cons]

theorem hexTokenize_ok_good :
    ∀ s ns : List Nat, hexTokenize s = .ok ns →
      s.all hexGoodCp = true ∧ ns = s.filterMap revHexVal := by
  intro s
  induction s with
  | nil =>
    intro ns h
    rw [hexTokenize] at h
    rw [Except.ok.injEq] at h
    simp [h.symm]
  | cons c rest ih =>
    intro ns h
    cases hv : revHexVal c with
    | some v =>
      simp only [hexTokenize, hv] at h
      cases hrest : hexTokenize rest with
      | error e => rw [hrest] at h; exact absurd h (by simp [Except.map])
      | ok ms =>
        rw [hrest] at h
        simp only [Except.map, Except.ok.injEq] at h
        obtain ⟨hall, hms⟩ := ih ms hrest
        constructor
        · simp [List.all_cons, hexGoodCp, inRevHexMap, hv, hall]
        · rw [List.filterMap_cons, hv, ← h, hms]
    | none =>
      simp only [hexTokenize, hv] at h
      split at h
      · obtain ⟨hall, hms⟩ := ih ns h
        constructor
        · simp only [List.all_cons, Bool.and_eq_true]
          refine ⟨by simp [hexGoodCp, *], hall⟩
        · rw [List.filterMap_cons, hv, hms]
      · exact absurd h (by simp)

theorem hexTokenize_first_bad (pre : List Nat) (c : Nat) (suf : List Nat)
    (hpre : pre.all hexGoodCp = true)
    (hc1 : isSpace c = false) (hc2 : revHexVal c = none) :
    hexTokenize (pre ++ c :: suf) = .error c := by
  induction pre with
  | nil =>
    rw [List.nil_append]
    simp only [hexTokenize, hc2]
    rw [if_neg (show ¬ isSpace c = true by rw [hc1]; exact Bool.false_ne_true)]
  | cons p ps ih =>
    rw [List.all_cons, Bool.and_eq_true] at hpre
    rw [List.cons_append]
    cases hv : revHexVal p with
    | some v => simp only [hexTokenize, hv, ih hpre.2, Except.map]
    | none =>
      have hsp : isSpace p = true := by
        have h1 := hpre.1
        rw [hexGoodCp, Bool.or_eq_true, inRevHexMap, hv] at h1
        simpa using h1
      simp only [hexTokenize, hv, if_pos hsp, ih hpre.2]

/-- `revHexVal` inverts the value-to-emoji table on nibble values. -/
theorem revHexVal_table_check :
    ((List.range 16).all
      (fun n => revHexVal (HEX_EMOJI_16.getD n 0) == some n)) = true := by rfl

theorem revHexVal_getD (n : Nat) (h : n < 16) :
    revHexVal (HEX_EMOJI_16.getD n 0) = some n := by
  have hm : n ∈ List.range 16 := List.mem_range.mpr h
  have := List.all_eq_true.mp revHexVal_table_check _ hm
  exact beq_iff_eq.mp this

theorem hexTokenize_encode (raw : List Nat) (hb : ∀ b ∈ raw, b < 256) :
    hexTokenize (raw.flatMap
        (fun b => [HEX_EMOJI_16.getD (b / 16) 0, HEX_EMOJI_16.getD (b % 16) 0]))
      = .ok (raw.flatMap (fun b => [b / 16, b % 16])) := by
  induction raw with
  | nil => rfl
  | cons b bs ih =>
    have hb0 : b < 256 := hb b (List.mem_cons_self b bs)
    have hbs : ∀ x ∈ bs, x < 256 := fun x hx => hb x (List.mem_cons_of_mem b hx)
    have hhi := revHexVal_getD (b / 16) (by omega)
    have hlo := revHexVal_getD (b % 16) (by omega)
    rw [show (b :: bs).flatMap
        (fun b => [HEX_EMOJI_16.getD (b / 16) 0, HEX_EMOJI_16.getD (b % 16) 0]) =
      HEX_EMOJI_16.getD (b / 16) 0 :: HEX_EMOJI_16.getD (b % 16) 0 ::
        bs.flatMap (fun b => [HEX_EMOJI_16.getD (b / 16) 0, HEX_EMOJI_16.getD (b % 16) 0])
      from rfl]
    simp only [hexTokenize, hhi, hlo, ih hbs]
    rfl

theorem nibblesToBytes_pairs (raw : List Nat) :
    nibblesToBytes (raw.flatMap (fun b => [b / 16, b % 16])) = raw := by
  induction raw with
  | nil => rfl
  | cons b bs ih =>
    rw [show (b :: bs).flatMap (fun b => [b / 16, b % 16]) =
      b / 16 :: b % 16 :: bs.flatMap (fun b => [b / 16, b % 16]) from rfl]
    rw [nibblesToBytes, ih]
    rw [show b / 16 * 16 + b % 16 = b by omega]

theorem flatMap_pairs_length (raw : List Nat) :
    (raw.flatMap (fun b => [b / 16, b % 16])).length = 2 * raw.length := by
  induction raw with
  | nil => rfl
  | cons b bs ih =>
    rw [show (b :: bs).flatMap (fun b => [b / 16, b % 16]) =
      b / 16 :: b % 16 :: bs.flatMap (fun b => [b / 16, b % 16]) from rfl]
    simp only [List.length_cons, ih]
    omega

theorem isSpace_ne_sadface (w : Nat) (hw : isSpace w = true) : w ≠ 0x2639 := by
  intro he
  rw [he] at hw
  exact absurd hw (by decide)

/-- The greedy two-code-point probe fails when the first code point is
whitespace. -/
theorem b64_greedy_false_of_space (w c2 : Nat) (hw : isSpace w = true) :
    ((emojiToB64 [w, c2]).isSome || decide ([w, c2] = [padCp])) = false := by
  rw [Bool.or_eq_false_iff]
  constructor
  · cases hs : (emojiToB64 [w, c2]).isSome
    · rfl
    · obtain ⟨h1, -⟩ := emojiToB64_two_shape w c2 hs
      exact absurd h1 (isSpace_ne_sadface w hw)
  · simp

theorem b64Tokenize_ws_cons (w : Nat) (hw : isSpace w = true) (rest : List Nat) :
    b64Tokenize (w :: rest) = b64Tokenize rest := by
  have hsp : pyStrIsSpace [w] = true := by simp [pyStrIsSpace, hw]
  cases rest with
  | nil =>
    rw [show b64Tokenize [w] = b64HandleUnit [w] (.ok []) from rfl]
    rw [b64HandleUnit, if_pos hsp]
    rfl
  | cons c2 r =>
    rw [show b64Tokenize (w :: c2 :: r) =
      (if ((emojiToB64 [w, c2]).isSome || decide ([w, c2] = [padCp])) = true then
        b64HandleUnit [w, c2] (b64Tokenize r)
      else b64HandleUnit [w] (b64Tokenize (c2 :: r))) from rfl]
    rw [if_neg (by rw [b64_greedy_false_of_space w c2 hw]; exact Bool.false_ne_true)]
    rw [b64HandleUnit, if_pos hsp]

theorem b64Tokenize_ws_append (ws : List Nat) (hw : ws.all isSpace = true)
    (rest : List Nat) : b64Tokenize (ws ++ rest) = b64Tokenize rest := by
  induction ws with
  | nil => rfl
  | cons w ws2 ih =>
    rw [List.all_cons, Bool.and_eq_true] at hw
    rw [List.cons_append, b64Tokenize_ws_cons w hw.1, ih hw.2]

theorem b64Tokenize_sym_append (u : List Nat) (hu : isB64SymU u = true)
    (rest : List Nat) :
    b64Tokenize (u ++ rest) = (b64Tokenize rest).map (fun cs => b64SymTok u :: cs) := by
  rw [isB64SymU, Bool.or_eq_true, beq_iff_eq] at hu
  rcases hu with hsome | hpad
  · obtain ⟨ch, hch⟩ := Option.isSome_iff_exists.mp hsome
    rcases emojiToB64_key_shape u ch hch with ⟨c, rfl, hns, hn39, -, hnpad⟩ | rfl
    · have hupad : ¬([c] = [padCp]) := by simpa using hnpad
      have hsp : ¬(pyStrIsSpace [c] = true) := by simp [pyStrIsSpace, hns]
      have htok : b64SymTok [c] = ch := by
        rw [b64SymTok, if_neg hupad, hch]
        rfl
      cases rest with
      | nil =>
        rw [List.cons_append, List.nil_append]
        rw [show b64Tokenize [c] = b64HandleUnit [c] (.ok []) from rfl]
        rw [b64HandleUnit, if_neg hsp, if_neg hupad, hch, htok]
        rfl
      | cons c2 r =>
        have hg : ((emojiToB64 [c, c2]).isSome || decide ([c, c2] = [padCp])) = false := by
          rw [Bool.or_eq_false_iff]
          constructor
          · cases hs : (emojiToB64 [c, c2]).isSome
            · rfl
            · obtain ⟨h1, -⟩ := emojiToB64_two_shape c c2 hs
              exact absurd h1 hn39
          · simp
        rw [List.cons_append, List.nil_append]
        rw [show b64Tokenize (c :: c2 :: r) =
          (if ((emojiToB64 [c, c2]).isSome || decide ([c, c2] = [padCp])) = true then
            b64HandleUnit [c, c2] (b64Tokenize r)
          else b64HandleUnit [c] (b64Tokenize (c2 :: r))) from rfl]
        rw [if_neg (by rw [hg]; exact Bool.false_ne_true)]
        rw [b64HandleUnit, if_neg hsp, if_neg hupad, hch, htok]
    · rw [show ([0x2639, 0xFE0F] : List Nat) ++ rest = 0x2639 :: 0xFE0F :: rest from rfl]
      rw [show b64Tokenize (0x2639 :: 0xFE0F :: rest) =
        (if ((emojiToB64 [0x2639, 0xFE0F]).isSome ||
            decide (([0x2639, 0xFE0F] : List Nat) = [padCp])) = true then
          b64HandleUnit [0x2639, 0xFE0F] (b64Tokenize rest)
        else b64HandleUnit [0x2639] (b64Tokenize (0xFE0F :: rest))) from rfl]
      rw [if_pos (by rw [hch]; rfl)]
      rw [b64HandleUnit, if_neg (by decide), if_neg (by decide), hch]
      rw [show b64SymTok [0x2639, 0xFE0F] = ch from by
        rw [b64SymTok, if_neg (by decide), hch]; rfl]
  · subst hpad
    have hsp : ¬(pyStrIsSpace [padCp] = true) := by decide
    have htok : b64SymTok [padCp] = 0x3D := by rw [b64SymTok, if_pos rfl]
    cases rest with
    | nil =>
      rw [List.cons_append, List.nil_append]
      rw [show b64Tokenize [padCp] = b64HandleUnit [padCp] (.ok []) from rfl]
      rw [b64HandleUnit, if_neg hsp, if_pos rfl, htok]
      rfl
    | cons c2 r =>
      have hg : ((emojiToB64 [padCp, c2]).isSome || decide ([padCp, c2] = [padCp])) = false := by
        rw [Bool.or_eq_false_iff]
        constructor
        · cases hs : (emojiToB64 [padCp, c2]).isSome
          · rfl
          · obtain ⟨h1, -⟩ := emojiToB64_two_shape padCp c2 hs
            exact absurd h1 (by decide)
        · simp
      rw [List.cons_append, List.nil_append]
      rw [show b64Tokenize (padCp :: c2 :: r) =
        (if ((emojiToB64 [padCp, c2]).isSome || decide ([padCp, c2] = [padCp])) = true then
          b64HandleUnit [padCp, c2] (b64Tokenize r)
        else b64HandleUnit [padCp] (b64Tokenize (c2 :: r))) from rfl]
      rw [if_neg (by rw [hg]; exact Bool.false_ne_true)]
      rw [b64HandleUnit, if_neg hsp, if_pos rfl, htok]

theorem b64Tokenize_wsInterleave (parts : List (List Nat × List Nat)) :
    ∀ lead tail : List Nat, lead.all isSpace = true →
      (∀ p ∈ parts, isB64SymU p.1 = true ∧ p.2.all isSpace = true) →
      b64Tokenize (wsInterleave lead parts ++ tail)
        = (b64Tokenize tail).map
            (fun cs => parts.map (fun p => b64SymTok p.1) ++ cs) := by
  induction parts with
  | nil =>
    intro lead tail hlead hp
    rw [wsInterleave, List.map_nil, List.flatten_nil, List.append_nil]
    rw [b64Tokenize_ws_append lead hlead tail]
    cases b64Tokenize tail <;> simp [Except.map]
  | cons p ps ih =>
    intro lead tail hlead hp
    obtain ⟨s, w⟩ := p
    have hps : isB64SymU s = true ∧ w.all isSpace = true :=
      hp (s, w) (List.mem_cons_self _ _)
    rw [show wsInterleave lead ((s, w) :: ps) ++ tail =
        lead ++ (s ++ (wsInterleave w ps ++ tail)) from by
      rw [wsInterleave, wsInterleave, List.map_cons, List.flatten_cons]
      simp [List.append_assoc]]
    rw [b64Tokenize_ws_append lead hlead]
    rw [b64Tokenize_sym_append s hps.1]
    rw [ih w tail hps.2 (fun q hq => hp q (List.mem_cons_of_mem _ hq))]
    rw [exceptMap_map]
    rw [List.map_cons]
    cases b64Tokenize tail <;> simp [Except.map]

theorem hexTokenize_ws_cons (w : Nat) (hw : isSpace w = true) (rest : List Nat) :
    hexTokenize (w :: rest) = hexTokenize rest := by
  cases hv : revHexVal w with
  | some v =>
    have hns := inRevHexMap_not_space w (by rw [inRevHexMap, hv]; rfl)
    rw [hns] at hw
    exact absurd hw (by simp)
  | none => simp only [hexTokenize, hv, if_pos hw]

theorem hexTokenize_ws_append (ws : List Nat) (hw : ws.all isSpace = true)
    (rest : List Nat) : hexTokenize (ws ++ rest) = hexTokenize rest := by
  induction ws with
  | nil => rfl
  | cons w ws2 ih =>
    rw [List.all_cons, Bool.and_eq_true] at hw
    rw [List.cons_append, hexTokenize_ws_cons w hw.1, ih hw.2]

theorem isHexSymU_shape (u : List Nat) (hu : isHexSymU u = true) :
    ∃ c, u = [c] ∧ inRevHexMap c = true := by
  match u, hu with
  | [c], hu => exact ⟨c, rfl, hu⟩

theorem hexTokenize_sym_append (u : List Nat) (hu : isHexSymU u = true)
    (rest : List Nat) :
    hexTokenize (u ++ rest) = (hexTokenize rest).map (fun ns => hexSymVal u :: ns) := by
  obtain ⟨c, rfl, hc⟩ := isHexSymU_shape u hu
  obtain ⟨v, hv⟩ := Option.isSome_iff_exists.mp hc
  rw [List.cons_append, List.nil_append]
  simp only [hexTokenize, hv]
  rw [show hexSymVal [c] = v from by rw [hexSymVal, List.headD_cons, hv]; rfl]

theorem hexTokenize_wsInterleave (parts : List (List Nat × List Nat)) :
    ∀ lead tail : List Nat, lead.all isSpace = true →
      (∀ p ∈ parts, isHexSymU p.1 = true ∧ p.2.all isSpace = true) →
      hexTokenize (wsInterleave lead parts ++ tail)
        = (hexTokenize tail).map
            (fun ns => parts.map (fun p => hexSymVal p.1) ++ ns) := by
  induction parts with
  | nil =>
    intro lead tail hlead hp
    rw [wsInterleave, List.map_nil, List.flatten_nil, List.append_nil]
    rw [hexTokenize_ws_append lead hlead tail]
    cases hexTokenize tail <;> simp [Except.map]
  | cons p ps ih =>
    intro lead tail hlead hp
    obtain ⟨s, w⟩ := p
    have hps : isHexSymU s = true ∧ w.all isSpace = true :=
      hp (s, w) (List.mem_cons_self _ _)
    rw [show wsInterleave lead ((s, w) :: ps) ++ tail =
        lead ++ (s ++ (wsInterleave w ps ++ tail)) from by
      rw [wsInterleave, wsInterleave, List.map_cons, List.flatten_cons]
      simp [List.append_assoc]]
    rw [hexTokenize_ws_append lead hlead]
    rw [hexTokenize_sym_append s hps.1]
    rw [ih w tail hps.2 (fun q hq => hp q (List.mem_cons_of_mem _ hq))]
    rw [exceptMap_map]
    rw [List.map_cons]
    cases hexTokenize tail <;> simp [Except.map]

/-- C4: nibble round-trip. For every text whose code points are all
UTF-8-encodable scalar values, `encode_hex_emoji` succeeds, and
`decode_hex_emoji` of its payload succeeds with payload exactly the
original text. -/
theorem nibble_roundtrip (t : List Nat) (h : t.all isValidScalar = true) :
    (encode_hex_emoji t).ok = true ∧
      decode_hex_emoji (encode_hex_emoji t).data = ⟨true, t, none⟩ := by
  have henc : pyUtf8Encode t = some (t.flatMap utf8EncodeChar) := by
    rw [pyUtf8Encode, if_pos h]
  have hbytes : ∀ b ∈ t.flatMap utf8EncodeChar, b < 256 := by
    intro b hb
    rw [List.mem_flatMap] at hb
    obtain ⟨c, hc, hbc⟩ := hb
    exact utf8EncodeChar_lt_256 c (List.all_eq_true.mp h c hc) b hbc
  have he : encode_hex_emoji t =
      ⟨true, (t.flatMap utf8EncodeChar).flatMap
        (fun b => [HEX_EMOJI_16.getD (b / 16) 0, HEX_EMOJI_16.getD (b % 16) 0]), none⟩ := by
    simp only [encode_hex_emoji, henc]
  refine ⟨by rw [he], ?_⟩
  rw [he]
  have htok := hexTokenize_encode (t.flatMap utf8EncodeChar) hbytes
  simp only [decode_hex_emoji, htok]
  rw [if_neg (by rw [flatMap_pairs_length]; omega)]
  rw [nibblesToBytes_pairs, utf8_roundtrip t h]

/-- C4 witness. -/
theorem nibble_roundtrip_witness :
    ([72, 105].all isValidScalar = true) ∧
      decode_hex_emoji (encode_hex_emoji [72, 105]).data = ⟨true, [72, 105], none⟩ :=
  ⟨by decide, (nibble_roundtrip [72, 105] (by decide)).2⟩

theorem flatMap_emojiPairs_length (raw : List Nat) :
    (raw.flatMap
      (fun b => [HEX_EMOJI_16.getD (b / 16) 0, HEX_EMOJI_16.getD (b % 16) 0])).length
      = 2 * raw.length := by
  induction raw with
  | nil => rfl
  | cons b bs ih =>
    rw [show (b :: bs).flatMap
        (fun b => [HEX_EMOJI_16.getD (b / 16) 0, HEX_EMOJI_16.getD (b % 16) 0]) =
      HEX_EMOJI_16.getD (b / 16) 0 :: HEX_EMOJI_16.getD (b % 16) 0 ::
        bs.flatMap (fun b => [HEX_EMOJI_16.getD (b / 16) 0, HEX_EMOJI_16.getD (b % 16) 0])
      from rfl]
    simp only [List.length_cons, ih]
    omega

/-- C7: nibble encoding shape. When the text UTF-8-encodes to bytes `bs`,
`encode_hex_emoji` succeeds and emits, for each byte in order, the symbol
of the high nibble then the symbol of the low nibble; the payload length
in symbols (= code points, the hex alphabet being single-code-point) is
`2 * bs.length`. -/
theorem nibble_encoding_shape (t bs : List Nat) (h : pyUtf8Encode t = some bs) :
    encode_hex_emoji t =
      ⟨true, bs.flatMap
        (fun b => [HEX_EMOJI_16.getD (b / 16) 0, HEX_EMOJI_16.getD (b % 16) 0]), none⟩ ∧
      (encode_hex_emoji t).data.length = 2 * bs.length := by
  have he : encode_hex_emoji t =
      ⟨true, bs.flatMap
        (fun b => [HEX_EMOJI_16.getD (b / 16) 0, HEX_EMOJI_16.getD (b % 16) 0]), none⟩ := by
    simp only [encode_hex_emoji, h]
  refine ⟨he, ?_⟩
  rw [he]
  exact flatMap_emojiPairs_length bs

/-- C7 witness. -/
theorem nibble_encoding_shape_witness :
    pyUtf8Encode [72, 105] = some [72, 105] ∧
      (encode_hex_emoji [72, 105]).data.length = 2 * 2 :=
  ⟨by decide, (nibble_encoding_shape [72, 105] [72, 105] (by decide)).2⟩

/-- C6: malformed length. (a) Whenever tokenization recognizes an odd
number of nibble tokens, `decode_hex_emoji` fails with the
malformed-stream ("Odd-length hex") error. (b) In particular, removing
any one symbol from a stream that decodes successfully (such a stream has
an even token count) yields a stream whose decode fails with that error,
never a success. -/
theorem malformed_length_nibble :
    (∀ s ns : List Nat, hexTokenize s = .ok ns → ns.length % 2 = 1 →
      decode_hex_emoji s = ⟨false, [], some PyErr.oddLengthHex⟩) ∧
    (∀ pre suf : List Nat, ∀ c : Nat, inRevHexMap c = true →
      (decode_hex_emoji (pre ++ c :: suf)).ok = true →
      decode_hex_emoji (pre ++ suf) = ⟨false, [], some PyErr.oddLengthHex⟩) := by
  have parta : ∀ s ns : List Nat, hexTokenize s = .ok ns → ns.length % 2 = 1 →
      decode_hex_emoji s = ⟨false, [], some PyErr.oddLengthHex⟩ := by
    intro s ns htok hodd
    simp only [decode_hex_emoji, htok]
    rw [if_pos (by omega)]
  refine ⟨parta, ?_⟩
  intro pre suf c hc hok
  obtain ⟨v, hv⟩ := Option.isSome_iff_exists.mp hc
  cases htok : hexTokenize (pre ++ c :: suf) with
  | error e =>
    simp only [decode_hex_emoji, htok] at hok
    exact absurd hok Bool.false_ne_true
  | ok ns =>
    obtain ⟨hall, hns⟩ := hexTokenize_ok_good _ _ htok
    have heven : ns.length % 2 = 0 := by
      by_contra hodd
      simp only [decode_hex_emoji, htok] at hok
      rw [if_pos (by omega)] at hok
      exact absurd hok (by simp)
    rw [List.all_append, Bool.and_eq_true] at hall
    have hallc := hall.2
    rw [List.all_cons, Bool.and_eq_true] at hallc
    have hgood2 : (pre ++ suf).all hexGoodCp = true := by
      rw [List.all_append, Bool.and_eq_true]
      exact ⟨hall.1, hallc.2⟩
    have htok2 := hexTokenize_all_good _ hgood2
    refine parta _ _ htok2 ?_
    have hlen : ns.length =
        (pre.filterMap revHexVal).length + (suf.filterMap revHexVal).length + 1 := by
      rw [hns, List.filterMap_append, List.filterMap_cons, hv]
      simp only [List.length_append, List.length_cons]
      omega
    rw [List.filterMap_append, List.length_append]
    omega

/-- C6 witness. -/
theorem malformed_length_nibble_witness :
    inRevHexMap 0x1F601 = true ∧
      (decode_hex_emoji ([0x1F600] ++ 0x1F601 :: [0x1F602, 0x1F603])).ok = true ∧
      decode_hex_emoji ([0x1F600] ++ [0x1F602, 0x1F603]) =
        ⟨false, [], some PyErr.oddLengthHex⟩ :=
  ⟨by decide, by decide,
    malformed_length_nibble.2 [0x1F600] [0x1F602, 0x1F603] 0x1F601 (by decide) (by decide)⟩

/-- C5: whitespace insensitivity. Take any symbol stream, presented as
its list of symbols `parts` with arbitrary all-whitespace insertions
(`lead` before the first symbol, `p.2` after each symbol). If the
symbols are nibble symbols, the hex decoder returns the same
`CodecResult` on the whitespace-augmented stream as on the plain
concatenation of the symbols; likewise for base64 symbols (alphabet
entries or padding) and the base64 decoder. -/
theorem whitespace_insensitivity (lead : List Nat) (parts : List (List Nat × List Nat))
    (hlead : lead.all isSpace = true)
    (hws : ∀ p ∈ parts, p.2.all isSpace = true) :
    ((∀ p ∈ parts, isHexSymU p.1 = true) →
      decode_hex_emoji (wsInterleave lead parts)
        = decode_hex_emoji ((parts.map Prod.fst).flatten)) ∧
    ((∀ p ∈ parts, isB64SymU p.1 = true) →
      decode_b64_emoji (wsInterleave lead parts)
        = decode_b64_emoji ((parts.map Prod.fst).flatten)) := by
  have hplain : (parts.map Prod.fst).flatten
      = wsInterleave [] (parts.map (fun p => (p.1, ([] : List Nat)))) := by
    rw [wsInterleave, List.nil_append, List.map_map]
    congr 1
    apply List.map_congr_left
    intro p hp
    simp
  constructor
  · intro hsym
    have h1 := hexTokenize_wsInterleave parts lead [] hlead
      (fun p hp => ⟨hsym p hp, hws p hp⟩)
    have h2 := hexTokenize_wsInterleave (parts.map (fun p => (p.1, ([] : List Nat)))) [] []
      (by rfl)
      (by
        intro q hq
        rw [List.mem_map] at hq
        obtain ⟨p, hp, rfl⟩ := hq
        exact ⟨hsym p hp, rfl⟩)
    rw [List.append_nil] at h1 h2
    rw [List.map_map] at h2
    have h1a : hexTokenize (wsInterleave lead parts)
        = .ok (parts.map (fun p => hexSymVal p.1)) := by
      rw [h1, show hexTokenize [] = .ok [] from rfl]
      simp [Except.map]
    have h2a : hexTokenize ((parts.map Prod.fst).flatten)
        = .ok (parts.map (fun p => hexSymVal p.1)) := by
      rw [hplain, h2, show hexTokenize [] = .ok [] from rfl]
      simp [Except.map, Function.comp]
    simp only [decode_hex_emoji, h1a, h2a]
  · intro hsym
    have h1 := b64Tokenize_wsInterleave parts lead [] hlead
      (fun p hp => ⟨hsym p hp, hws p hp⟩)
    have h2 := b64Tokenize_wsInterleave (parts.map (fun p => (p.1, ([] : List Nat)))) [] []
      (by rfl)
      (by
        intro q hq
        rw [List.mem_map] at hq
        obtain ⟨p, hp, rfl⟩ := hq
        exact ⟨hsym p hp, rfl⟩)
    rw [List.append_nil] at h1 h2
    rw [List.map_map] at h2
    have h1a : b64Tokenize (wsInterleave lead parts)
        = .ok (parts.map (fun p => b64SymTok p.1)) := by
      rw [h1, show b64Tokenize [] = .ok [] from rfl]
      simp [Except.map]
    have h2a : b64Tokenize ((parts.map Prod.fst).flatten)
        = .ok (parts.map (fun p => b64SymTok p.1)) := by
      rw [hplain, h2, show b64Tokenize [] = .ok [] from rfl]
      simp [Except.map, Function.comp]
    simp only [decode_b64_emoji, h1a, h2a]

/-- C5 witness. -/
theorem whitespace_insensitivity_witness :
    decode_hex_emoji
        (wsInterleave [32] [([0x1F600], [10]), ([0x1F601], [])])
      = decode_hex_emoji (([([0x1F600], [10]), ([0x1F601], [])].map Prod.fst).flatten) ∧
    decode_b64_emoji
        (wsInterleave [32] [([0x1F600], [10]), ([0x1F601], [])])
      = decode_b64_emoji (([([0x1F600], [10]), ([0x1F601], [])].map Prod.fst).flatten) := by
  have h := whitespace_insensitivity [32] [([0x1F600], [10]), ([0x1F601], [])]
    (by decide) (by decide)
  exact ⟨h.1 (by decide), h.2 (by decide)⟩

/-- C8: unrecognized symbol. If a decode input consists of recognized
units (and whitespace) up to some non-whitespace unit that matches no
symbol of the active alphabet, the decoder fails with the unknown-emoji
error naming exactly that unit: (a) for the hex decoder, a code point
outside `REV_HEX_MAP`; (b) for the base64 decoder, a code point that is
neither a key of `EMOJI_TO_B64`, nor the padding emoji, nor the start of
the two-code-point symbol. -/
theorem unrecognized_symbol :
    (∀ pre suf : List Nat, ∀ c : Nat, pre.all hexGoodCp = true →
      isSpace c = false → revHexVal c = none →
      decode_hex_emoji (pre ++ c :: suf) = ⟨false, [], some (PyErr.unknownHexEmoji c)⟩) ∧
    (∀ lead suf : List Nat, ∀ parts : List (List Nat × List Nat), ∀ c : Nat,
      lead.all isSpace = true →
      (∀ p ∈ parts, isB64SymU p.1 = true ∧ p.2.all isSpace = true) →
      isSpace c = false → emojiToB64 [c] = none → c ≠ padCp →
      (∀ d suf2, suf = d :: suf2 → (emojiToB64 [c, d]).isSome = false) →
      decode_b64_emoji (wsInterleave lead parts ++ c :: suf)
        = ⟨false, [], some (PyErr.unknownB64Emoji [c])⟩) := by
  constructor
  · intro pre suf c hpre hc1 hc2
    have htok := hexTokenize_first_bad pre c suf hpre hc1 hc2
    simp only [decode_hex_emoji, htok]
  · intro lead suf parts c hlead hp hc1 hc2 hc3 hc4
    have hpadne : ¬([c] = [padCp]) := by simpa using hc3
    have hspne : ¬(pyStrIsSpace [c] = true) := by simp [pyStrIsSpace, hc1]
    have htail : b64Tokenize (c :: suf) = .error [c] := by
      cases suf with
      | nil =>
        rw [show b64Tokenize [c] = b64HandleUnit [c] (.ok []) from rfl]
        rw [b64HandleUnit, if_neg hspne, if_neg hpadne, hc2]
      | cons d suf2 =>
        have hg : ((emojiToB64 [c, d]).isSome || decide ([c, d] = [padCp])) = false := by
          rw [Bool.or_eq_false_iff]
          exact ⟨hc4 d suf2 rfl, by simp⟩
        rw [show b64Tokenize (c :: d :: suf2) =
          (if ((emojiToB64 [c, d]).isSome || decide ([c, d] = [padCp])) = true then
            b64HandleUnit [c, d] (b64Tokenize suf2)
          else b64HandleUnit [c] (b64Tokenize (d :: suf2))) from rfl]
        rw [if_neg (by rw [hg]; exact Bool.false_ne_true)]
        rw [b64HandleUnit, if_neg hspne, if_neg hpadne, hc2]
    have htok := b64Tokenize_wsInterleave parts lead (c :: suf) hlead hp
    rw [htail] at htok
    simp only [decode_b64_emoji, htok, Except.map]

/-- C8 witness. -/
theorem unrecognized_symbol_witness :
    decode_hex_emoji ([0x1F600] ++ 65 :: []) =
        ⟨false, [], some (PyErr.unknownHexEmoji 65)⟩ ∧
      decode_b64_emoji (wsInterleave [] [([0x1F600], [])] ++ 65 :: []) =
        ⟨false, [], some (PyErr.unknownB64Emoji [65])⟩ :=
  ⟨unrecognized_symbol.1 [0x1F600] [] 65 (by decide) (by decide) (by decide),
    unrecognized_symbol.2 [] [] [([0x1F600], [])] 65 (by decide) (by decide)
      (by decide) (by decide) (by decide) (fun d suf2 h => by cases h)⟩

/-- C9: detector containment. Every stream accepted by
`looks_like_hex_emoji` is also accepted by `looks_like_b64_emoji`,
because the 16 nibble emojis are exactly the first 16 entries of the
64-symbol alphabet (and so lie in its symbol set). -/
theorem detector_containment (s : List Nat) (h : looks_like_hex_emoji s = true) :
    looks_like_b64_emoji s = true := by
  rw [looks_like_hex_emoji, Bool.and_eq_true] at h
  rw [looks_like_b64_emoji, Bool.and_eq_true]
  constructor
  · rw [List.all_eq_true]
    intro x hx
    have hx2 := List.all_eq_true.mp h.1 x hx
    rw [Bool.or_eq_true] at hx2 ⊢
    rcases hx2 with hh | hs
    · exact Or.inl (inRevHexMap_inB64EmojiSet x hh)
    · exact Or.inr hs
  · obtain ⟨x, hx, hh⟩ := List.any_eq_true.mp h.2
    exact List.any_eq_true.mpr ⟨x, hx, inRevHexMap_inB64EmojiSet x hh⟩

/-- C9 witness. -/
theorem detector_containment_witness :
    looks_like_hex_emoji [0x1F600] = true ∧ looks_like_b64_emoji [0x1F600] = true :=
  ⟨by decide, detector_containment [0x1F600] (by decide)⟩

/-- C10: detector incompleteness for the two-code-point symbol. The text
"a,A" base64-encodes to the emoji stream 😑🥰☹️😁, a payload containing
the code point U+2639 of the symbol ☹️; `looks_like_b64_emoji` tests
membership code point by code point, U+2639 alone is in the set for no
alphabet entry, and the whole valid payload is rejected. -/
theorem detector_incompleteness :
    ∃ t : List Nat, (encode_b64_emoji t).ok = true ∧
      looks_like_b64_emoji (encode_b64_emoji t).data = false ∧
      0x2639 ∈ (encode_b64_emoji t).data :=
  ⟨[97, 44, 65], by decide, by decide, by decide⟩

/-- C1 (code bug): the base64 round-trip fails. "Hi" base64-encodes to
"SGk=", whose character `k` (index 36) maps to 😌; but 😌 also sits at
index 61, and the dict comprehension for `EMOJI_TO_B64` keeps the later
binding, so decoding maps 😌 back to `9` (index 61), giving "SG9=" and
the text "Ho" ≠ "Hi". -/
theorem base64_roundtrip_failure :
    encode_b64_emoji [72, 105] = ⟨true, [0x1F970, 0x1F606, 0x1F60C, padCp], none⟩ ∧
      decode_b64_emoji [0x1F970, 0x1F606, 0x1F60C, padCp] = ⟨true, [72, 111], none⟩ ∧
      ([72, 111] : List Nat) ≠ [72, 105] :=
  ⟨by decide, by decide, by decide⟩

/-- C2 (code bug): the base64 alphabet is not pairwise distinct — 🤗
occupies positions 20 and 41 (likewise 😴 at 35/60 and 😌 at 36/61), so
`BASE64_EMOJI_64` has duplicates, and `EMOJI_TO_B64` is not a two-sided
inverse of `B64_TO_EMOJI`: at position 20 (character `U`) it returns the
character of position 41 (`p`). The 16-entry hex alphabet, by contrast,
is duplicate-free. -/
theorem alphabet_distinctness_failure :
    BASE64_EMOJI_64.getD 20 [] = BASE64_EMOJI_64.getD 41 [] ∧
      ¬ BASE64_EMOJI_64.Nodup ∧
      HEX_EMOJI_16.Nodup ∧
      b64ToEmoji 85 = some [0x1F917] ∧
      emojiToB64 [0x1F917] = some 112 ∧
      (112 : Nat) ≠ 85 :=
  ⟨by decide, by decide, by decide, by decide, by decide, by decide⟩

/-- C3 (code bug): detector priority. The GUI auto-detect tests the
nibble predicate first and chooses the nibble decoder on the stream 😀😁;
but the CLI decode dispatch with the default mode `hex` routes the same
stream to the base64 decoder (the stream also satisfies
`looks_like_b64_emoji`, as every nibble stream does), which fails with a
padding error instead of returning the nibble decoding "\x01". -/
theorem cli_detector_priority_failure :
    looks_like_hex_emoji [0x1F600, 0x1F601] = true ∧
      looks_like_b64_emoji [0x1F600, 0x1F601] = true ∧
      auto_detect_decode [0x1F600, 0x1F601] = DetectChoice.chooseHex ∧
      cliDecodeDispatch CliMode.hex [0x1F600, 0x1F601] =
        ⟨false, [], some (PyErr.base64Error B64Err.incorrectPadding)⟩ ∧
      decode_hex_emoji [0x1F600, 0x1F601] = ⟨true, [1], none⟩ :=
  ⟨by decide, by decide, by decide, by decide, by decide⟩

end SigilWire
